import Mathlib

set_option maxRecDepth 100000

/-!
# Verification of the semconv processor (cedricziel/otel-semconvprocessor)

Shallow embedding of the OTTL-based span-processing pipeline:

* `processors/semconvprocessor/ottl_functions.go` — the custom OTTL string
  functions (`NormalizePath`, `RemoveQueryParams`, …);
* `processors/semconvprocessor/config.go` — `Config`, `SpanProcessingConfig`,
  `OTTLRule` and their `Validate` methods (including the `sort.Slice` call);
* the OTTL processor (`compileRules`, `processTraces`, `processSpan`,
  `getSpanKindString`).

OTTL expressions themselves come from an external parser; compiled conditions
and value expressions are therefore modelled as opaque evaluation functions
`TransformContext → Except String _`, mirroring `ottl.Condition.Eval` and
`ottl.ValueExpression.Eval` returning `(value, error)` pairs.

Go regular-expression replacement (`regexp.ReplaceAllString`) is embedded as a
left-to-right scan over the character list that replaces leftmost
non-overlapping matches and resumes scanning after the end of each match,
which is exactly the semantics of Go's `ReplaceAllString` for the concrete
patterns used by `normalizePath` (each pattern is unambiguous: a fixed-length
UUID shape, or a maximal run of digits/hex digits that must be followed by a
slash or the end of the input).
-/

/-! ## Characters classes used by the regexes in `ottl_functions.go` -/

/-- `[0-9a-fA-F]` — one hexadecimal digit, as in the UUID and hex regexes of
`normalizePath`. -/
def isHexChar (c : Char) : Bool :=
  ('0' ≤ c && c ≤ '9') || ('a' ≤ c && c ≤ 'f') || ('A' ≤ c && c ≤ 'F')

/-- `\d` — one decimal digit, as in the numeric regex of `normalizePath`. -/
def isDigitChar (c : Char) : Bool :=
  '0' ≤ c && c ≤ '9'

/-! ## Fixed-shape matcher for the UUID regex

`uuidRe = [0-9a-fA-F]{8}-[0-9a-fA-F]{4}-[0-9a-fA-F]{4}-[0-9a-fA-F]{4}-[0-9a-fA-F]{12}`
-/

/-- The canonical 8-4-4-4-12 UUID shape of `uuidRe`: exactly 36 characters,
dashes at positions 8, 13, 18 and 23, hexadecimal digits everywhere else. -/
def isUuidShape (cs : List Char) : Bool :=
  (cs.length == 36) &&
  (List.range 36).all (fun i =>
    if i = 8 || i = 13 || i = 18 || i = 23 then cs.getD i ' ' == '-'
    else isHexChar (cs.getD i ' '))

/-- Match `uuidRe` at the head of `cs`; on success return the characters
after the 36-character match. -/
def matchUuid (cs : List Char) : Option (List Char) :=
  if isUuidShape (cs.take 36) then some (cs.drop 36) else none

/-- `uuidRe.ReplaceAllString(s, "{id}")`: scan left to right; at the leftmost
position where the UUID shape matches, emit `{id}` and resume after the
36 consumed characters; otherwise emit the character and move on.  Every
step consumes at least one input character, so any fuel of at least the
input length makes the zero-fuel fallback unreachable. -/
def uuidReplaceF : Nat → List Char → List Char
  | 0, cs => cs
  | _ + 1, [] => []
  | fuel + 1, c :: cs =>
    match matchUuid (c :: cs) with
    | some rest => '{' :: 'i' :: 'd' :: '}' :: uuidReplaceF fuel rest
    | none => c :: uuidReplaceF fuel cs

/-- `uuidRe.ReplaceAllString` with sufficient fuel. -/
def uuidReplace (cs : List Char) : List Char :=
  uuidReplaceF cs.length cs

/-! ## Run matcher for the hex and numeric regexes

`hexRe = /[0-9a-fA-F]{16,}(/|$)` (replacement `/{id}$1`) and
`numericRe = /\d+(/|$)` (replacement `/{id}$1`).  A match starts at a slash,
consumes a maximal run of at least `minLen` matching characters, and must end
at a slash (which the match consumes and the replacement re-emits via `$1`)
or at the end of the input.
-/

/-- Try to match `/(run)(/|$)` at the head of `cs` where `run` is a maximal
run of characters satisfying `pred` of length at least `minLen`.  On success
return the replacement output (`/{id}` plus the captured delimiter) and the
characters after the whole match. -/
def matchSlashRun (pred : Char → Bool) (minLen : Nat) :
    List Char → Option (List Char × List Char)
  | [] => none
  | c :: cs₁ =>
    if c = '/' then
      if minLen ≤ (cs₁.takeWhile pred).length then
        match cs₁.dropWhile pred with
        | [] => some ("/{id}".toList, [])
        | '/' :: r2 => some ("/{id}/".toList, r2)
        | _ => none
      else none
    else none

/-- Generic embedding of `re.ReplaceAllString(s, "/{id}$1")` for the
slash-run regexes: replace leftmost non-overlapping matches, resuming after
each match (in particular after the consumed trailing slash).  As with
`uuidReplaceF`, every step consumes input, so fuel at least the input
length suffices. -/
def runReplaceF (pred : Char → Bool) (minLen : Nat) : Nat → List Char → List Char
  | 0, cs => cs
  | _ + 1, [] => []
  | fuel + 1, c :: cs =>
    match matchSlashRun pred minLen (c :: cs) with
    | some (out, rest) => out ++ runReplaceF pred minLen fuel rest
    | none => c :: runReplaceF pred minLen fuel cs

/-- `re.ReplaceAllString(s, "/{id}$1")` with sufficient fuel. -/
def runReplace (pred : Char → Bool) (minLen : Nat) (cs : List Char) : List Char :=
  runReplaceF pred minLen cs.length cs

/-! ## `normalizePath` and `removeQueryParams` -/

/-- The query-strip step of `normalizePath` (and the whole body of
`removeQueryParams`): `if idx := strings.Index(pathStr, "?"); idx != -1
{ pathStr = pathStr[:idx] }` — keep the characters before the first `?`. -/
def stripQuery (cs : List Char) : List Char :=
  cs.takeWhile (fun c => c ≠ '?')

/-- `normalizePath` from `ottl_functions.go`, applied to the string obtained
from the getter: strip the query, then replace UUIDs, then hex runs of at
least 16 between slashes, then numeric runs between slashes, each with
`{id}`. -/
def normalizePath (s : String) : String :=
  ⟨runReplace isDigitChar 1 (runReplace isHexChar 16 (uuidReplace (stripQuery s.data)))⟩

/-- `removeQueryParams` from `ottl_functions.go`: the substring before the
first `?`, or the input unchanged. -/
def removeQueryParams (s : String) : String :=
  ⟨stripQuery s.data⟩

/-! ## Configuration model (`config.go`)

`OTTLRule`, `SpanProcessingConfig` and `Config` mirror the mapstructure
types.  `ProcessingMode` is a string type in Go; it stays a `String` here,
with the two constants below.  The `span_kind` rule field is referenced by
the processor (`compiledRule.SpanKind`) and by the repository's tests and
README. -/

/-- `ModeEnrich` — add attributes only. -/
def modeEnrich : String := "enrich"

/-- `ModeEnforce` — replace span names. -/
def modeEnforce : String := "enforce"

/-- `OTTLRule` — one configured rule (expressions still uncompiled). -/
structure OTTLRule where
  id : String
  priority : Int
  spanKind : List String
  condition : String
  operationName : String
  operationType : String
deriving DecidableEq, Repr, Inhabited

/-- `SpanProcessingConfig`. -/
structure SpanProcessingConfig where
  enabled : Bool
  mode : String
  operationNameAttribute : String
  operationTypeAttribute : String
  preserveOriginalName : Bool
  originalNameAttribute : String
  rules : List OTTLRule
deriving DecidableEq, Repr, Inhabited

/-- `Config` — the processor configuration. -/
structure Config where
  enabled : Bool
  benchmark : Bool
  spanProcessing : SpanProcessingConfig
deriving DecidableEq, Repr, Inhabited

/-! ## Go's `sort.Slice` (pdqsort)

`SpanProcessingConfig.Validate` sorts the rules with `sort.Slice(sp.Rules,
func(i, j int) bool { return sp.Rules[i].Priority < sp.Rules[j].Priority })`.
`sort.Slice` is *not* a stable sort: since Go 1.19 it runs the pattern-
defeating quicksort of the runtime (`pdqsort_func`), which degenerates to a
stable insertion sort only for ranges of at most 12 elements.  The functions
below reproduce that algorithm (`sort.Slice`, `pdqsort_func`,
`insertionSort_func`, `siftDown_func`, `heapSort_func`, `reverseRange_func`,
`order2_func`, `median_func`, `medianAdjacent_func`, `choosePivot_func`,
`breakPatterns_func`, `partialInsertionSort_func`, `partition_func`,
`partitionEqual_func`, `xorshift`, `nextPowerOfTwo`, `bits.Len`) over an
array of rules, with the comparison reading the current priorities, exactly
as the reflect-based `lessSwap` does.  64-bit arithmetic is `Nat` with
explicit `% 2^64`.  Loops are recursion on explicit measures; the main
pdqsort loop takes fuel, which `goSortSliceRules` supplies in abundance
(every loop iteration strictly shrinks the range, and the recursion depth is
bounded by the limit, so `(size + 2) * (limit + 2)` steps can never be
exhausted). -/

/-- The priority of the rule at index `i` (indices produced by the sort are
always in bounds; `getD` totalises). -/
def prioAt (arr : Array OTTLRule) (i : Nat) : Int :=
  (arr.getD i default).priority

/-- `data.Less(i, j)` for the closure passed to `sort.Slice`. -/
def lessAt (arr : Array OTTLRule) (i j : Nat) : Bool :=
  prioAt arr i < prioAt arr j

/-- `data.Swap(i, j)` — the reflect swapper. -/
def swapGo (arr : Array OTTLRule) (i j : Nat) : Array OTTLRule :=
  let x := arr.getD i default
  let y := arr.getD j default
  (arr.setD i y).setD j x

/-- `insertionSort_func`, inner loop: shift `arr[j]` left while it is
smaller than its predecessor and `j > a`. -/
def insertInner (a : Nat) : Array OTTLRule → Nat → Array OTTLRule
  | arr, 0 => arr
  | arr, j + 1 =>
    if a < j + 1 && lessAt arr (j + 1) j then insertInner a (swapGo arr (j + 1) j) j
    else arr

/-- `insertionSort_func`, outer loop over `i = a+1 .. b-1` (fuel bounds the
iteration count; callers pass at least `b + 1`, which cannot run out). -/
def insertOuter (a b : Nat) : Array OTTLRule → Nat → Nat → Array OTTLRule
  | arr, _, 0 => arr
  | arr, i, fuel + 1 =>
    if i < b then insertOuter a b (insertInner a arr i) (i + 1) fuel else arr

/-- `insertionSort_func(data, a, b)`. -/
def insertionSortGo (arr : Array OTTLRule) (a b : Nat) : Array OTTLRule :=
  insertOuter a b arr (a + 1) (b + 1)

/-- `siftDown_func(data, root, hi, first)` — implements heap order with the
larger child.  The root strictly increases every round, so fuel `hi + 1`
cannot run out. -/
def siftDownGo : Nat → Array OTTLRule → Nat → Nat → Nat → Array OTTLRule
  | 0, arr, _, _, _ => arr
  | fuel + 1, arr, root, hi, first =>
    if 2 * root + 1 < hi then
      let child :=
        if 2 * root + 2 < hi && lessAt arr (first + 2 * root + 1) (first + 2 * root + 2)
        then 2 * root + 2 else 2 * root + 1
      if lessAt arr (first + root) (first + child) then
        siftDownGo fuel (swapGo arr (first + root) (first + child)) child hi first
      else arr
    else arr

/-- First loop of `heapSort_func`: build the heap, `i = (hi-1)/2 .. 0`
(the argument is `i + 1`). -/
def heapBuildGo (hi first : Nat) : Array OTTLRule → Nat → Array OTTLRule
  | arr, 0 => arr
  | arr, n + 1 => heapBuildGo hi first (siftDownGo (hi + 1) arr n hi first) n

/-- Second loop of `heapSort_func`: pop the maximum, `i = hi-1 .. 0`
(the argument is `i + 1`). -/
def heapExtractGo (first : Nat) : Array OTTLRule → Nat → Array OTTLRule
  | arr, 0 => arr
  | arr, n + 1 =>
    heapExtractGo first (siftDownGo (n + 1) (swapGo arr first (first + n)) 0 n first) n

/-- `heapSort_func(data, a, b)`. -/
def heapSortGo (arr : Array OTTLRule) (a b : Nat) : Array OTTLRule :=
  let hi := b - a
  heapExtractGo a (heapBuildGo hi a arr ((hi - 1) / 2 + 1)) hi

/-- `reverseRange_func(data, a, b-1)` (fuel as above; `j + 1` suffices). -/
def reverseRangeGo : Nat → Array OTTLRule → Nat → Nat → Array OTTLRule
  | 0, arr, _, _ => arr
  | fuel + 1, arr, i, j =>
    if i < j then reverseRangeGo fuel (swapGo arr i j) (i + 1) (j - 1) else arr

/-- `order2_func(data, a, b, &swaps)`: put the two indices in order,
counting a swap. -/
def order2Go (arr : Array OTTLRule) (i j swaps : Nat) : Nat × Nat × Nat :=
  if lessAt arr j i then (j, i, swaps + 1) else (i, j, swaps)

/-- `median_func(data, a, b, c, &swaps)`: index of the median of three. -/
def medianGo (arr : Array OTTLRule) (a b c swaps : Nat) : Nat × Nat :=
  let p1 := order2Go arr a b swaps
  let p2 := order2Go arr p1.2.1 c p1.2.2
  let p3 := order2Go arr p1.1 p2.1 p2.2.2
  (p3.2.1, p3.2.2)

/-- `medianAdjacent_func(data, i, &swaps)`: median of `i-1, i, i+1`. -/
def medianAdjacentGo (arr : Array OTTLRule) (i swaps : Nat) : Nat × Nat :=
  medianGo arr (i - 1) i (i + 1) swaps

/-- The `sortedHint` returned by `choosePivot_func`. -/
inductive SortedHint where
  | increasing
  | decreasing
  | unknown
deriving DecidableEq, Repr

/-- `choosePivot_func(data, a, b)`: median (of medians) of fixed sample
positions; the swap count gives the hint (`0` increasing, `12` decreasing,
otherwise unknown). -/
def choosePivotGo (arr : Array OTTLRule) (a b : Nat) : Nat × SortedHint :=
  let l := b - a
  let i := a + l / 4 * 1
  let j := a + l / 4 * 2
  let k := a + l / 4 * 3
  let (pivot, swaps) :=
    if 8 ≤ l then
      if 50 ≤ l then
        let pi := medianAdjacentGo arr i 0
        let pj := medianAdjacentGo arr j pi.2
        let pk := medianAdjacentGo arr k pj.2
        medianGo arr pi.1 pj.1 pk.1 pk.2
      else
        medianGo arr i j k 0
    else (j, 0)
  if swaps = 0 then (pivot, SortedHint.increasing)
  else if swaps = 12 then (pivot, SortedHint.decreasing)
  else (pivot, SortedHint.unknown)

/-- `bits.Len(n)` — the number of bits needed to represent `n`. -/
def goBitsLen (n : Nat) : Nat :=
  if n = 0 then 0 else Nat.log2 n + 1

/-- One step of the `xorshift` generator used by `breakPatterns_func`
(64-bit arithmetic). -/
def xorshiftNext (r : Nat) : Nat :=
  let r1 := (Nat.xor r ((r <<< 13) % 2 ^ 64)) % 2 ^ 64
  let r2 := Nat.xor r1 (r1 >>> 7)
  (Nat.xor r2 ((r2 <<< 17) % 2 ^ 64)) % 2 ^ 64

/-- `nextPowerOfTwo(length) = 1 << bits.Len(uint(length))`. -/
def nextPowerOfTwoGo (length : Nat) : Nat :=
  1 <<< goBitsLen length

/-- The three swaps of `breakPatterns_func`, `i = 0, 1, 2`; `rand` is the
xorshift state. -/
def breakPatternsLoop (a length idx : Nat) : Array OTTLRule → Nat → Nat → Array OTTLRule
  | arr, _, 0 => arr
  | arr, rand, n + 1 =>
    let rand := xorshiftNext rand
    let other := rand % nextPowerOfTwoGo length
    let other := if other ≥ length then other - length else other
    let i := 3 - (n + 1)
    breakPatternsLoop a length idx (swapGo arr (idx - 1 + i) (a + other)) rand n

/-- `breakPatterns_func(data, a, b)`: swap three elements around the middle
with pseudo-randomly chosen ones. -/
def breakPatternsGo (arr : Array OTTLRule) (a b : Nat) : Array OTTLRule :=
  let length := b - a
  if 8 ≤ length then
    let idx := a + (length / 4) * 2 - 1
    breakPatternsLoop a length idx arr length 3
  else arr

/-- Left shift of `partialInsertionSort_func`: `for j := i - 1; j >= 1; j--`
moving the smaller element left while out of order (argument is `j`). -/
def partialShiftLeft : Array OTTLRule → Nat → Array OTTLRule
  | arr, 0 => arr
  | arr, j + 1 =>
    if lessAt arr (j + 1) j then partialShiftLeft (swapGo arr (j + 1) j) j
    else arr

/-- Right shift of `partialInsertionSort_func`: `for j := i + 1; j < b; j++`
moving the greater element right while out of order (fuel `b + 1`
suffices). -/
def partialShiftRight (b : Nat) : Nat → Array OTTLRule → Nat → Array OTTLRule
  | 0, arr, _ => arr
  | fuel + 1, arr, j =>
    if j < b then
      if lessAt arr j (j - 1) then partialShiftRight b fuel (swapGo arr j (j - 1)) (j + 1)
      else arr
    else arr

/-- The scan `for i < b && !data.Less(i, i-1) { i++ }` of
`partialInsertionSort_func` (fuel `b + 1` suffices). -/
def pisAdvance (b : Nat) : Nat → Array OTTLRule → Nat → Nat
  | 0, _, i => i
  | fuel + 1, arr, i =>
    if i < b then
      if !lessAt arr i (i - 1) then pisAdvance b fuel arr (i + 1) else i
    else i

/-- Body of `partialInsertionSort_func`: at most `maxSteps = 5` adjacent
out-of-order pairs are repaired (`steps` counts down); returns the array and
whether the range ended up sorted.  `shortestShifting = 50`. -/
def partialInsertionSortLoop (a b : Nat) : Array OTTLRule → Nat → Nat → Array OTTLRule × Bool
  | arr, _, 0 => (arr, false)
  | arr, i, steps + 1 =>
    let i := pisAdvance b (b + 1) arr i
    if i = b then (arr, true)
    else if b - a < 50 then (arr, false)
    else
      let arr := swapGo arr i (i - 1)
      let arr := if i - a ≥ 2 then partialShiftLeft arr (i - 1) else arr
      let arr := if b - i ≥ 2 then partialShiftRight b (b + 1) arr (i + 1) else arr
      partialInsertionSortLoop a b arr i steps

/-- `partialInsertionSort_func(data, a, b)`. -/
def partialInsertionSortGo (arr : Array OTTLRule) (a b : Nat) : Array OTTLRule × Bool :=
  partialInsertionSortLoop a b arr (a + 1) 5

/-- `partition_func`, advancing scan: `for i <= j && data.Less(i, a) { i++ }`
(fuel `j + 2` suffices). -/
def partAdvanceI : Nat → Array OTTLRule → Nat → Nat → Nat → Nat
  | 0, _, _, _, i => i
  | fuel + 1, arr, a, j, i =>
    if i ≤ j && lessAt arr i a then partAdvanceI fuel arr a j (i + 1) else i

/-- `partition_func`, retreating scan: `for i <= j && !data.Less(j, a) { j-- }`
(callers always have `i ≥ a + 1 ≥ 1`, so the scan never needs to go below
zero). -/
def partRetreatJ (arr : Array OTTLRule) (a i : Nat) : Nat → Nat
  | 0 => 0
  | j + 1 => if i ≤ j + 1 && !lessAt arr (j + 1) a then partRetreatJ arr a i j else j + 1



/-- Main loop of `partition_func` after the first crossing swap: returns
the array and the final `j`.  The fuel is a bound on the number of
iterations; `i` strictly increases each round, so any fuel of at least
`j + 2 - i` suffices and the zero-fuel fallback is never taken by
`partitionGo`. -/
def partLoopGo : Nat → Array OTTLRule → Nat → Nat → Nat → Array OTTLRule × Nat
  | 0, arr, _, _, j => (arr, j)
  | fuel + 1, arr, a, i, j =>
    let i' := partAdvanceI (j + 2) arr a j i
    let j' := partRetreatJ arr a i' j
    if i' > j' then (arr, j')
    else partLoopGo fuel (swapGo arr i' j') a (i' + 1) (j' - 1)

/-- `partition_func(data, a, b, pivot)`: move the pivot to `a`, partition
strictly-less to the left, and place the pivot at the returned position; the
boolean reports an already-partitioned range. -/
def partitionGo (arr0 : Array OTTLRule) (a b pivot : Nat) :
    Array OTTLRule × Nat × Bool :=
  let arr := swapGo arr0 a pivot
  let i := partAdvanceI (b + 2) arr a (b - 1) (a + 1)
  let j := partRetreatJ arr a i (b - 1)
  if i > j then (swapGo arr j a, j, true)
  else
    let p := partLoopGo (b + 2) (swapGo arr i j) a (i + 1) (j - 1)
    (swapGo p.1 p.2 a, p.2, false)

/-- `partitionEqual_func`, advancing scan: `for i <= j && !data.Less(a, i)`
(fuel `j + 2` suffices). -/
def peqAdvanceI : Nat → Array OTTLRule → Nat → Nat → Nat → Nat
  | 0, _, _, _, i => i
  | fuel + 1, arr, a, j, i =>
    if i ≤ j && !lessAt arr a i then peqAdvanceI fuel arr a j (i + 1) else i

/-- `partitionEqual_func`, retreating scan: `for i <= j && data.Less(a, j)`. -/
def peqRetreatJ (arr : Array OTTLRule) (a i : Nat) : Nat → Nat
  | 0 => 0
  | j + 1 => if i ≤ j + 1 && lessAt arr a (j + 1) then peqRetreatJ arr a i j else j + 1



/-- Main loop of `partitionEqual_func`: returns the array and the final
`i`.  The fuel bound is as in `partLoopGo`. -/
def peqLoopGo : Nat → Array OTTLRule → Nat → Nat → Nat → Array OTTLRule × Nat
  | 0, arr, _, i, _ => (arr, i)
  | fuel + 1, arr, a, i, j =>
    let i' := peqAdvanceI (j + 2) arr a j i
    let j' := peqRetreatJ arr a i' j
    if i' > j' then (arr, i')
    else peqLoopGo fuel (swapGo arr i' j') a (i' + 1) (j' - 1)

/-- `partitionEqual_func(data, a, b, pivot)`: partition elements equal to
the pivot to the left; returns the first index of the strictly-greater
suffix. -/
def partitionEqualGo (arr0 : Array OTTLRule) (a b pivot : Nat) :
    Array OTTLRule × Nat :=
  let arr := swapGo arr0 a pivot
  peqLoopGo (b + 2) arr a (a + 1) (b - 1)

/-- `pdqsort_func(data, a, b, limit)`:  one fuel unit per iteration of the
outer loop / recursive call; `wasBalanced` and `wasPartitioned` are the
loop-carried locals (reset to `true` in recursive calls, as in Go, where
they are function-locals). -/
def pdqsortGo (fuel : Nat) (arr : Array OTTLRule) (a b limit : Nat)
    (wasBalanced wasPartitioned : Bool) : Array OTTLRule :=
  let length := b - a
  if length ≤ 12 then insertionSortGo arr a b
  else
    match fuel with
    | 0 => arr
    | fuel + 1 =>
      if limit = 0 then heapSortGo arr a b
      else
        let arr := if !wasBalanced then breakPatternsGo arr a b else arr
        let limit := if !wasBalanced then limit - 1 else limit
        let ph := choosePivotGo arr a b
        let arr := if ph.2 = SortedHint.decreasing then reverseRangeGo (b + 1) arr a (b - 1) else arr
        let pivot := if ph.2 = SortedHint.decreasing then (b - 1) - (ph.1 - a) else ph.1
        let hint := if ph.2 = SortedHint.decreasing then SortedHint.increasing else ph.2
        let pis :=
          if wasBalanced && wasPartitioned && hint = SortedHint.increasing then
            partialInsertionSortGo arr a b
          else (arr, false)
        if pis.2 then pis.1
        else
          let arr := pis.1
          if 0 < a && !lessAt arr (a - 1) pivot then
            let pe := partitionEqualGo arr a b pivot
            pdqsortGo fuel pe.1 pe.2 b limit wasBalanced wasPartitioned
          else
            let pr := partitionGo arr a b pivot
            let arr := pr.1
            let mid := pr.2.1
            let wasPartitioned := pr.2.2
            let leftLen := mid - a
            let rightLen := b - mid
            let wasBalanced := decide (min leftLen rightLen ≥ length / 8)
            if leftLen < rightLen then
              let arr := pdqsortGo fuel arr a mid limit true true
              pdqsortGo fuel arr (mid + 1) b limit wasBalanced wasPartitioned
            else
              let arr := pdqsortGo fuel arr (mid + 1) b limit true true
              pdqsortGo fuel arr a mid limit wasBalanced wasPartitioned

/-- `sort.Slice(rules, less-by-priority)`: run pdqsort over the whole
array with `limit = bits.Len(len(rules))`.  The fuel is a safe upper bound
on the number of loop iterations and recursive calls. -/
def goSortSliceRules (rules : List OTTLRule) : List OTTLRule :=
  let arr := rules.toArray
  let limit := goBitsLen arr.size
  (pdqsortGo ((arr.size + 2) * (limit + 2)) arr 0 arr.size limit true true).toList

/-! ## `Validate` (`config.go`)

Go mutates the receiver (defaults, sort) and returns an `error`; the
embedding returns the updated configuration in `Except String _`. -/

/-- The per-rule validation loop of `SpanProcessingConfig.Validate`:
`i` is the running index, `seen` the set of ids seen so far (`seenIDs`). -/
def validateRulesLoop : List OTTLRule → Nat → List String → Except String Unit
  | [], _, _ => Except.ok ()
  | r :: rs, i, seen =>
    if r.id = "" then Except.error s!"rule at index {i} has empty ID"
    else if seen.contains r.id then Except.error s!"duplicate rule ID: {r.id}"
    else if r.condition = "" then Except.error s!"rule {r.id} has empty condition"
    else if r.operationName = "" then Except.error s!"rule {r.id} has empty operation_name"
    else validateRulesLoop rs (i + 1) (r.id :: seen)

/-- `SpanProcessingConfig.Validate`: mode check (empty defaults to enrich),
default attribute names, non-empty rule list, per-rule checks, and the
`sort.Slice` priority sort. -/
def SpanProcessingConfig.validate (sp : SpanProcessingConfig) :
    Except String SpanProcessingConfig :=
  if sp.mode ≠ modeEnrich ∧ sp.mode ≠ modeEnforce ∧ sp.mode ≠ "" then
    Except.error s!"invalid mode {sp.mode}, must be enrich or enforce"
  else
    let mode := if sp.mode = "" then modeEnrich else sp.mode
    let opNameAttr := if sp.operationNameAttribute = "" then "operation.name"
                      else sp.operationNameAttribute
    let opTypeAttr := if sp.operationTypeAttribute = "" then "operation.type"
                      else sp.operationTypeAttribute
    let origAttr := if sp.originalNameAttribute = "" then "span.name.original"
                    else sp.originalNameAttribute
    if sp.rules.length = 0 then Except.error "at least one rule must be defined"
    else
      match validateRulesLoop sp.rules 0 [] with
      | Except.error e => Except.error e
      | Except.ok () =>
        Except.ok { sp with
          mode := mode
          operationNameAttribute := opNameAttr
          operationTypeAttribute := opTypeAttr
          originalNameAttribute := origAttr
          rules := goSortSliceRules sp.rules }

/-- `Config.Validate`: delegates to `SpanProcessingConfig.Validate` only
when `span_processing.enabled` is set; otherwise succeeds with the
configuration untouched. -/
def Config.validate (cfg : Config) : Except String Config :=
  if cfg.spanProcessing.enabled then
    match cfg.spanProcessing.validate with
    | Except.error e => Except.error s!"span_processing validation failed: {e}"
    | Except.ok sp => Except.ok { cfg with spanProcessing := sp }
  else Except.ok cfg

/-! ## Span data model (`pdata` views used by the processor)

The processor reads a span's name, kind and attribute map, checks presence
of keys and inserts string attributes (`pcommon.Map.Get` / `PutStr`), and
sets the name.  Attribute maps are association lists with unique keys;
`PutStr` overwrites in place or appends.  Span kinds are the `ptrace`
integer enum. -/

/-- A `pcommon.Value` as far as this processor stores or compares them. -/
inductive AttrVal where
  | str (s : String)
  | int (n : Int)
  | bool (b : Bool)
deriving DecidableEq, Repr

/-- An attribute map (`pcommon.Map`). -/
abbrev Attrs := List (String × AttrVal)

/-- `pcommon.Map.Get`. -/
def attrsGet (m : Attrs) (k : String) : Option AttrVal :=
  (m.find? (fun p => p.1 == k)).map (fun p => p.2)

/-- `pcommon.Map.PutStr`: overwrite in place when the key exists, append
otherwise. -/
def attrsPutStr (m : Attrs) (k v : String) : Attrs :=
  if (m.find? (fun p => p.1 == k)).isSome then
    m.map (fun p => if p.1 == k then (k, AttrVal.str v) else p)
  else m ++ [(k, AttrVal.str v)]

/-- A span as read and written by `processSpan`: name, kind
(`ptrace.SpanKind` integer) and attributes. -/
structure Span where
  name : String
  kind : Int
  attrs : Attrs
deriving DecidableEq, Repr

/-- `getSpanKindString` — the switch over `ptrace.SpanKind` (default:
`unspecified`). -/
def getSpanKindString (kind : Int) : String :=
  if kind = 0 then "unspecified"
  else if kind = 1 then "internal"
  else if kind = 2 then "server"
  else if kind = 3 then "client"
  else if kind = 4 then "producer"
  else if kind = 5 then "consumer"
  else "unspecified"

/-! ## OTTL values and compiled rules

`ottl.Condition.Eval` and `ottl.ValueExpression.Eval` return `(value, error)`
pairs computed by the external OTTL engine; they are modelled as opaque
functions into `Except`.  The value type covers the scalar results this
processor stringifies (float results exist in OTTL but are outside this
model).  `tCtx` is built once per span from the span, scope and resource
(plus dummy parents), before any mutation. -/

/-- The transform context handed to compiled expressions. -/
structure TransformContext where
  span : Span
  scope : Attrs
  resource : Attrs

/-- A value produced by an OTTL value expression (`any` in Go).  A float64
result is represented by its canonical textual form — the shortest
round-tripping decimal `strconv.FormatFloat(f, 'g', -1, 64)`, which is
exactly what `%v` prints for a float64.  The embedding does not compute
with floating point, and the opaque expressions can only surface a float
through that canonical text, so the `float` constructor carries it
directly. -/
inductive OttlValue where
  | nil
  | str (s : String)
  | int (n : Int)
  | bool (b : Bool)
  | float (canonicalText : String)
deriving DecidableEq, Repr

/-- `fmt.Sprintf("%v", v)` for the values above: Go prints untyped `nil`
as `<nil>`, strings verbatim, integers in decimal, booleans as
`true`/`false`, and float64 values in their canonical shortest `%g` form
(which the `float` constructor carries). -/
def goFormatV : OttlValue → String
  | OttlValue.nil => "<nil>"
  | OttlValue.str s => s
  | OttlValue.int n => toString n
  | OttlValue.bool b => if b then "true" else "false"
  | OttlValue.float canonicalText => canonicalText

/-- `compiledRule` — a rule after `compileRules`: metadata plus the
compiled condition and value expressions. -/
structure CompiledRule where
  id : String
  priority : Int
  spanKind : List String
  condition : TransformContext → Except String Bool
  operationName : TransformContext → Except String OttlValue
  operationType : Option (TransformContext → Except String OttlValue)

/-- An OTTL parser as used by `compileRules`: `ParseCondition` and
`ParseValueExpression` (external `ottl.Parser`). -/
structure OttlParser where
  parseCondition : String → Except String (TransformContext → Except String Bool)
  parseValueExpression : String → Except String (TransformContext → Except String OttlValue)

/-- `compileRules`: compile each configured rule in order; the first parse
failure aborts with an error naming the rule. -/
def compileRules (p : OttlParser) : List OTTLRule → Except String (List CompiledRule)
  | [] => Except.ok []
  | r :: rs =>
    match p.parseCondition r.condition with
    | Except.error _ => Except.error s!"failed to parse condition for rule {r.id}"
    | Except.ok cond =>
      match p.parseValueExpression r.operationName with
      | Except.error _ => Except.error s!"failed to parse operation_name for rule {r.id}"
      | Except.ok opName =>
        match (if r.operationType = "" then Except.ok none
               else match p.parseValueExpression r.operationType with
                    | Except.error _ =>
                      Except.error s!"failed to parse operation_type for rule {r.id}"
                    | Except.ok f => Except.ok (some f)) with
        | Except.error e => Except.error e
        | Except.ok opType =>
          match compileRules p rs with
          | Except.error e => Except.error e
          | Except.ok rest =>
            Except.ok ({ id := r.id, priority := r.priority, spanKind := r.spanKind,
                         condition := cond, operationName := opName,
                         operationType := opType } :: rest)

/-! ## Processor state (benchmark maps and telemetry)

`semconvProcessor` carries two benchmark maps and the telemetry counters.
Counters are event counts; `span_names_enforced` keeps its attribute tuples
`(rule_id, operation_type, mode)`.  `processor_semconv_errors` is declared
in the telemetry (`metadata.yaml`, README) but — notably — never incremented
anywhere in the processor source. -/

/-- Telemetry counters and gauges touched by the trace path. -/
structure Telemetry where
  spansProcessed : Nat
  spanNamesEnforced : List (String × String × String)
  errorsCount : Nat
  uniqueSpanNamesTotal : Nat
  uniqueOperationNamesTotal : Nat
  originalSpanNameCount : Nat
  reducedSpanNameCount : Nat
deriving DecidableEq, Repr

/-- Mutable processor state: the two benchmark maps plus telemetry. -/
structure ProcState where
  spanNameCount : List (String × Int)
  operationCount : List (String × Int)
  telemetry : Telemetry
deriving DecidableEq, Repr

/-- The all-zero initial state. -/
def initState : ProcState :=
  ⟨[], [], ⟨0, [], 0, 0, 0, 0, 0⟩⟩

/-- Increment a benchmark map entry (`m[k]++` on a Go map). -/
def mapInc (m : List (String × Int)) (k : String) : List (String × Int) :=
  if (m.find? (fun p => p.1 == k)).isSome then
    m.map (fun p => if p.1 == k then (p.1, p.2 + 1) else p)
  else m ++ [(k, 1)]

/-! ## `processSpan` and `processTraces` (the OTTL processor)

The rule loop evaluates all expressions against the transform context built
before the loop (no mutation can occur before the first applied rule, after
which the loop breaks), applies the first matching rule according to the
mode, records telemetry and benchmark data, and stops. -/

/-- Benchmark tracking of the original span name at the top of
`processSpan` (runs before the skip-on-present check). -/
def benchObserveOriginal (cfg : Config) (name : String) (st : ProcState) : ProcState :=
  if cfg.benchmark then
    let st :=
      if (st.spanNameCount.find? (fun p => p.1 == name)).isSome then st
      else { st with telemetry.uniqueSpanNamesTotal := st.telemetry.uniqueSpanNamesTotal + 1 }
    { st with spanNameCount := mapInc st.spanNameCount name }
  else st

/-- Benchmark tracking of the produced operation name after a rule applies. -/
def benchObserveOperation (cfg : Config) (opName : String) (st : ProcState) : ProcState :=
  if cfg.benchmark then
    let st :=
      if (st.operationCount.find? (fun p => p.1 == opName)).isSome then st
      else { st with telemetry.uniqueOperationNamesTotal := st.telemetry.uniqueOperationNamesTotal + 1 }
    { st with operationCount := mapInc st.operationCount opName }
  else st

/-- The span-kind filter at the top of the rule loop: with a non-empty
`span_kind` list, the span's kind string must be listed. -/
def kindFilterPasses (r : CompiledRule) (span : Span) : Bool :=
  !(r.spanKind.length > 0) || r.spanKind.contains (getSpanKindString span.kind)

/-- The `operationType` string of a matched rule: absent expression or an
evaluation error yield the empty string, otherwise the `%v` form. -/
def ruleOperationType (tCtx : TransformContext) (r : CompiledRule) : String :=
  match r.operationType with
  | none => ""
  | some f =>
    match f tCtx with
    | Except.ok v => goFormatV v
    | Except.error _ => ""

/-- The span after the mode switch applies a matched rule producing
`opName`/`opType`:

* enrich: put the operation-name attribute; put the operation-type
  attribute only if non-empty and absent;
* enforce: put the operation-name attribute, preserve the original name
  when configured and different, set the span name, then the same
  absent-only operation-type put;
* any other mode string: no mutation (the Go switch has no default). -/
def applySpanMode (sp : SpanProcessingConfig) (opName opType : String) (span : Span) : Span :=
  if sp.mode = modeEnrich then
    let attrs := attrsPutStr span.attrs sp.operationNameAttribute opName
    let attrs :=
      if opType ≠ "" ∧ (attrsGet attrs sp.operationTypeAttribute).isNone then
        attrsPutStr attrs sp.operationTypeAttribute opType
      else attrs
    { span with attrs := attrs }
  else if sp.mode = modeEnforce then
    let attrs := attrsPutStr span.attrs sp.operationNameAttribute opName
    let originalName := span.name
    let attrs :=
      if sp.preserveOriginalName ∧ originalName ≠ opName then
        attrsPutStr attrs sp.originalNameAttribute originalName
      else attrs
    let attrs :=
      if opType ≠ "" ∧ (attrsGet attrs sp.operationTypeAttribute).isNone then
        attrsPutStr attrs sp.operationTypeAttribute opType
      else attrs
    { span with name := opName, attrs := attrs }
  else span

/-- Telemetry of a matched rule: one `span_names_enforced` event with
`(rule_id, operation_type, mode)` in the enrich and enforce branches. -/
def applyStateMode (cfg : Config) (ruleId opName opType : String) (st : ProcState) : ProcState :=
  let st :=
    if cfg.spanProcessing.mode = modeEnrich ∨ cfg.spanProcessing.mode = modeEnforce then
      { st with telemetry.spanNamesEnforced :=
          st.telemetry.spanNamesEnforced ++ [(ruleId, opType, cfg.spanProcessing.mode)] }
    else st
  benchObserveOperation cfg opName st

/-- The whole effect of a matched rule `r` on the span, given the result
value `v` of its `operation_name` expression. -/
def matchedSpan (cfg : Config) (tCtx : TransformContext) (r : CompiledRule)
    (v : OttlValue) (span : Span) : Span :=
  applySpanMode cfg.spanProcessing (goFormatV v) (ruleOperationType tCtx r) span

/-- The rule loop of `processSpan` over the compiled rules, in order:
kind filter, condition (errors skip), operation-name evaluation (errors
skip), apply-and-break. -/
def evalRules (cfg : Config) (tCtx : TransformContext) :
    List CompiledRule → Span → ProcState → Span × ProcState
  | [], span, st => (span, st)
  | r :: rest, span, st =>
    if !kindFilterPasses r span then evalRules cfg tCtx rest span st
    else
      match r.condition tCtx with
      | Except.error _ => evalRules cfg tCtx rest span st
      | Except.ok false => evalRules cfg tCtx rest span st
      | Except.ok true =>
        match r.operationName tCtx with
        | Except.error _ => evalRules cfg tCtx rest span st
        | Except.ok v =>
          (matchedSpan cfg tCtx r v span,
           applyStateMode cfg r.id (goFormatV v) (ruleOperationType tCtx r) st)

/-- `processSpan`: benchmark-track the original name, skip when the
operation-name attribute is already present, otherwise run the rule loop
with the context built from the unmutated span. -/
def processSpan (cfg : Config) (rules : List CompiledRule) (resource scope : Attrs)
    (span : Span) (st : ProcState) : Span × ProcState :=
  let st := benchObserveOriginal cfg span.name st
  if (attrsGet span.attrs cfg.spanProcessing.operationNameAttribute).isSome then (span, st)
  else evalRules cfg { span := span, scope := scope, resource := resource } rules span st

/-- One scope-spans group: process each span in order (only when span
processing is enabled), counting every span. -/
def processSpansList (cfg : Config) (rules : List CompiledRule) (resource scope : Attrs) :
    List Span → ProcState → List Span × ProcState × Nat
  | [], st => ([], st, 0)
  | span :: spans, st =>
    let (span', st') :=
      if cfg.spanProcessing.enabled then processSpan cfg rules resource scope span st
      else (span, st)
    let (spans', st'', n) := processSpansList cfg rules resource scope spans st'
    (span' :: spans', st'', n + 1)

/-- A `ScopeSpans` group. -/
structure ScopeSpans where
  scope : Attrs
  spans : List Span
deriving DecidableEq, Repr

/-- A `ResourceSpans` group. -/
structure ResourceSpans where
  resource : Attrs
  scopeSpans : List ScopeSpans
deriving DecidableEq, Repr

/-- A trace batch (`ptrace.Traces`). -/
abbrev Traces := List ResourceSpans

/-- Iterate the scope-spans groups of one resource. -/
def processScopeSpans (cfg : Config) (rules : List CompiledRule) (resource : Attrs) :
    List ScopeSpans → ProcState → List ScopeSpans × ProcState × Nat
  | [], st => ([], st, 0)
  | ss :: rest, st =>
    let (spans', st', n₁) := processSpansList cfg rules resource ss.scope ss.spans st
    let (rest', st'', n₂) := processScopeSpans cfg rules resource rest st'
    ({ ss with spans := spans' } :: rest', st'', n₁ + n₂)

/-- Iterate the resource-spans groups. -/
def processResourceSpans (cfg : Config) (rules : List CompiledRule) :
    Traces → ProcState → Traces × ProcState × Nat
  | [], st => ([], st, 0)
  | rs :: rest, st =>
    let (sss', st', n₁) := processScopeSpans cfg rules rs.resource rs.scopeSpans st
    let (rest', st'', n₂) := processResourceSpans cfg rules rest st'
    ({ rs with scopeSpans := sss' } :: rest', st'', n₁ + n₂)

/-- `recordBenchmarkMetrics`: record both unique-count gauges from the map
sizes. -/
def recordBenchmarkMetrics (st : ProcState) : ProcState :=
  { st with
    telemetry.originalSpanNameCount := st.spanNameCount.length
    telemetry.reducedSpanNameCount := st.operationCount.length }

/-- `processTraces`: pass the batch through untouched when the processor is
disabled; otherwise walk every span (processing it only when
`span_processing.enabled`), add the span count to `spans_processed` when
positive, and record benchmark gauges when `benchmark` is on.  (Wall-clock
duration recording is not modelled.) -/
def processTraces (cfg : Config) (rules : List CompiledRule) (td : Traces)
    (st : ProcState) : Traces × ProcState :=
  if !cfg.enabled then (td, st)
  else
    let (td', st', count) := processResourceSpans cfg rules td st
    let st' :=
      if count > 0 then
        { st' with telemetry.spansProcessed := st'.telemetry.spansProcessed + count }
      else st'
    let st' := if cfg.benchmark then recordBenchmarkMetrics st' else st'
    (td', st')

/-- A rule is admissible for a span (in the sense of the first-match
property): its kind filter passes, its condition evaluates to `true`
without error, and its `operation_name` expression evaluates without
error. -/
def ruleApplies (tCtx : TransformContext) (span : Span) (r : CompiledRule) : Bool :=
  kindFilterPasses r span &&
  (match r.condition tCtx with | Except.ok true => true | _ => false) &&
  (match r.operationName tCtx with | Except.ok _ => true | Except.error _ => false)

/-- The span produced by applying an admissible rule (as `matchedSpan`,
reading the operation-name value off the expression). -/
def appliedSpan (cfg : Config) (tCtx : TransformContext) (r : CompiledRule)
    (span : Span) : Span :=
  match r.operationName tCtx with
  | Except.ok v => matchedSpan cfg tCtx r v span
  | Except.error _ => span

/-! ## Fixed-point predicates for the `normalizePath` stages

Used to characterise when a second application of `normalizePath` cannot
change its input: no `?`, and no position at which the UUID, hex-run or
numeric-run matcher fires. -/

/-- No `?` anywhere (the query strip is then the identity). -/
def noQuery (cs : List Char) : Bool :=
  cs.all (fun c => c ≠ '?')

/-- The UUID matcher fires at no position of `cs`. -/
def uuidNoMatch : List Char → Bool
  | [] => true
  | c :: cs => (matchUuid (c :: cs)).isNone && uuidNoMatch cs

/-- The slash-run matcher fires at no position of `cs`. -/
def runNoMatch (pred : Char → Bool) (minLen : Nat) : List Char → Bool
  | [] => true
  | c :: cs => (matchSlashRun pred minLen (c :: cs)).isNone && runNoMatch pred minLen cs

/-! ## Concrete instances used by the counterexamples and witnesses -/

/-- A minimal valid configured rule with the given id and priority. -/
def mkRule (i : String) (p : Int) : OTTLRule :=
  { id := i, priority := p, spanKind := [], condition := "true",
    operationName := "\"x\"", operationType := "" }

/-- Thirteen rules whose priorities force `sort.Slice` beyond the stable
insertion-sort range: `r05` and `r12` share priority 40, `r05` declared
first. -/
def rules13 : List OTTLRule :=
  [mkRule "r00" 10, mkRule "r01" 11, mkRule "r02" 90, mkRule "r03" 50,
   mkRule "r04" 12, mkRule "r05" 40, mkRule "r06" 13, mkRule "r07" 70,
   mkRule "r08" 80, mkRule "r09" 60, mkRule "r10" 14, mkRule "r11" 15,
   mkRule "r12" 40]

/-- A span-processing configuration carrying the thirteen rules. -/
def spCfg13 : SpanProcessingConfig :=
  { enabled := true, mode := "enrich", operationNameAttribute := "",
    operationTypeAttribute := "", preserveOriginalName := false,
    originalNameAttribute := "", rules := rules13 }

/-- Three rules with a priority tie (`alpha`/`beta` at 100) within the
insertion-sort range. -/
def rulesTie3 : List OTTLRule :=
  [mkRule "alpha" 100, mkRule "beta" 100, mkRule "gamma" 50]

/-- A span-processing configuration carrying the three tied rules. -/
def spCfgTie3 : SpanProcessingConfig :=
  { spCfg13 with rules := rulesTie3 }

/-- An enforce-mode processor configuration with the default attribute
names, benchmark off. -/
def cfgEnforce : Config :=
  { enabled := true, benchmark := false,
    spanProcessing :=
      { enabled := true, mode := "enforce", operationNameAttribute := "operation.name",
        operationTypeAttribute := "operation.type", preserveOriginalName := true,
        originalNameAttribute := "span.name.original", rules := [] } }

/-- The same configuration in enrich mode. -/
def cfgEnrich : Config :=
  { cfgEnforce with spanProcessing := { cfgEnforce.spanProcessing with mode := "enrich" } }

/-- A compiled rule whose condition always errors at evaluation time. -/
def ruleCondErr : CompiledRule :=
  { id := "bad", priority := 1, spanKind := [],
    condition := fun _ => Except.error "eval error",
    operationName := fun _ => Except.ok (OttlValue.str "A"),
    operationType := none }

/-- A compiled rule that always matches and produces `"B"` / `"http"`. -/
def ruleOkB : CompiledRule :=
  { id := "ok", priority := 2, spanKind := [],
    condition := fun _ => Except.ok true,
    operationName := fun _ => Except.ok (OttlValue.str "B"),
    operationType := some (fun _ => Except.ok (OttlValue.str "http")) }

/-- A compiled rule that always matches and whose `operation_name`
expression evaluates to `nil`. -/
def ruleNil : CompiledRule :=
  { id := "nilrule", priority := 1, spanKind := [],
    condition := fun _ => Except.ok true,
    operationName := fun _ => Except.ok OttlValue.nil,
    operationType := none }

/-- A server span with two HTTP attributes and no operation name. -/
def spanHttp : Span :=
  { name := "GET /users/42", kind := 2,
    attrs := [("http.method", AttrVal.str "GET"), ("http.route", AttrVal.str "/users/42")] }

/-- A batch holding just `spanHttp`. -/
def tracesOne : Traces :=
  [{ resource := [("service.name", AttrVal.str "svc")],
     scopeSpans := [{ scope := [], spans := [spanHttp] }] }]

/-- The configuration of `C8`: span processing enabled, one valid rule,
`original_name_attribute` left empty so that `Validate` fills the default. -/
def spCfgC8 : SpanProcessingConfig :=
  { enabled := true, mode := "enforce", operationNameAttribute := "",
    operationTypeAttribute := "", preserveOriginalName := true,
    originalNameAttribute := "", rules := [mkRule "http" 100] }

/-- A thoroughly invalid configuration (bad mode, duplicate empty ids,
empty expressions) with span processing disabled — `Validate` must accept
it untouched. -/
def cfgDisabledInvalid : Config :=
  { enabled := true, benchmark := true,
    spanProcessing :=
      { enabled := false, mode := "bogus", operationNameAttribute := "",
        operationTypeAttribute := "", preserveOriginalName := true,
        originalNameAttribute := "",
        rules := [{ id := "", priority := 5, spanKind := [], condition := "",
                    operationName := "", operationType := "" },
                  { id := "", priority := 3, spanKind := [], condition := "",
                    operationName := "", operationType := "" }] } }

/-! ## List-level reading of the insertion-sort path

For at most 12 elements, `pdqsort_func` immediately runs
`insertionSort_func`, whose outer loop maintains a sorted prefix and whose
inner loop bubbles the next element left past strictly greater elements —
it lands after every element of priority ≤ its own, so equal priorities
keep their input order.  `stableInsert`/`stableSortGo` state that effect on
lists; the simulation proof below connects them to the array code. -/

/-- The ordering underlying the priority sort. -/
def prioLE (a b : OTTLRule) : Prop :=
  a.priority ≤ b.priority

/-- Where Go's inner insertion loop puts `x` into the sorted prefix `s`:
after every element with priority ≤ `x`'s, before the strictly greater
suffix. -/
def stableInsert (x : OTTLRule) (s : List OTTLRule) : List OTTLRule :=
  s.takeWhile (fun y => y.priority ≤ x.priority) ++
    x :: s.dropWhile (fun y => y.priority ≤ x.priority)

/-- The list-level effect of Go's insertion sort: insert each element, left
to right, into the sorted prefix. -/
def stableSortGo (l : List OTTLRule) : List OTTLRule :=
  l.foldl (fun s x => stableInsert x s) []

/-- What `Validate` produces from `spCfgTie3`: defaults filled, the three
rules sorted with the tied pair in declaration order. -/
def spCfgTie3Valid : SpanProcessingConfig :=
  { enabled := true, mode := "enrich", operationNameAttribute := "operation.name",
    operationTypeAttribute := "operation.type", preserveOriginalName := false,
    originalNameAttribute := "span.name.original",
    rules := [mkRule "gamma" 50, mkRule "alpha" 100, mkRule "beta" 100] }

/-! # Theorems -/

/-! ## Supporting lemmas for the `normalizePath` fixed point -/

theorem stripQuery_eq_self {cs : List Char} (h : noQuery cs = true) :
    stripQuery cs = cs := by
  induction cs with
  | nil => rfl
  | cons c cs ih =>
    simp only [noQuery, List.all_cons, Bool.and_eq_true] at h
    have hc : decide (c ≠ '?') = true := h.1
    simp only [stripQuery, List.takeWhile, hc]
    have := ih (by simpa [noQuery] using h.2)
    simpa [stripQuery] using this

theorem uuidReplaceF_eq_self (fuel : Nat) {cs : List Char}
    (h : uuidNoMatch cs = true) : uuidReplaceF fuel cs = cs := by
  induction fuel generalizing cs with
  | zero => rfl
  | succ fuel ih =>
    cases cs with
    | nil => rfl
    | cons c cs =>
      simp only [uuidNoMatch, Bool.and_eq_true, Option.isNone_iff_eq_none] at h
      simp only [uuidReplaceF, h.1]
      rw [ih h.2]

theorem runReplaceF_eq_self (pred : Char → Bool) (minLen fuel : Nat) {cs : List Char}
    (h : runNoMatch pred minLen cs = true) : runReplaceF pred minLen fuel cs = cs := by
  induction fuel generalizing cs with
  | zero => rfl
  | succ fuel ih =>
    cases cs with
    | nil => rfl
    | cons c cs =>
      simp only [runNoMatch, Bool.and_eq_true, Option.isNone_iff_eq_none] at h
      simp only [runReplaceF, h.1]
      rw [ih h.2]

/-! ## C5 — idempotence of `NormalizePath` -/

/-- C5 (counterexample): `NormalizePath` is *not* idempotent.  One
application maps `/12/34` to `/{id}/34` (the match `/12/` consumes the
middle slash, so `34` is skipped), and a second application then rewrites
the now isolated `/34` as well. -/
theorem normalizePath_not_idempotent :
    normalizePath "/12/34" = "/{id}/34" ∧
    normalizePath (normalizePath "/12/34") = "/{id}/{id}" ∧
    normalizePath (normalizePath "/12/34") ≠ normalizePath "/12/34" := by
  refine ⟨by decide, by decide, by decide⟩

/-- C5 (amended): `NormalizePath` is idempotent on every input whose first
application leaves no replaceable fragment — no `?`, no UUID occurrence, no
`/hex{16,}(/|$)` match and no `/digits(/|$)` match anywhere in the result.
(The documented example paths all satisfy this; adjacent id-like segments
such as `/12/34` do not.) -/
theorem normalizePath_idem_of_no_match (x : String)
    (h1 : noQuery (normalizePath x).data = true)
    (h2 : uuidNoMatch (normalizePath x).data = true)
    (h3 : runNoMatch isHexChar 16 (normalizePath x).data = true)
    (h4 : runNoMatch isDigitChar 1 (normalizePath x).data = true) :
    normalizePath (normalizePath x) = normalizePath x := by
  show (⟨runReplace isDigitChar 1 (runReplace isHexChar 16
      (uuidReplace (stripQuery (normalizePath x).data)))⟩ : String) = normalizePath x
  rw [stripQuery_eq_self h1]
  show (⟨runReplace isDigitChar 1 (runReplace isHexChar 16
      (uuidReplaceF (normalizePath x).data.length (normalizePath x).data))⟩ : String)
    = normalizePath x
  rw [uuidReplaceF_eq_self _ h2]
  show (⟨runReplace isDigitChar 1
      (runReplaceF isHexChar 16 (normalizePath x).data.length (normalizePath x).data)⟩ : String)
    = normalizePath x
  rw [runReplaceF_eq_self _ _ _ h3]
  show (⟨runReplaceF isDigitChar 1 (normalizePath x).data.length (normalizePath x).data⟩ : String)
    = normalizePath x
  rw [runReplaceF_eq_self _ _ _ h4]

/-- C5 (witness): the amended idempotence applies to the documented
example `/users/123/posts/456`. -/
theorem normalizePath_idem_witness :
    normalizePath (normalizePath "/users/123/posts/456") =
      normalizePath "/users/123/posts/456" :=
  normalizePath_idem_of_no_match "/users/123/posts/456"
    (by decide) (by decide) (by decide) (by decide)

/-! ## C6 — numeric path segments -/

/-- C6 (counterexample): not every purely-numeric segment is replaced.
The claim's own example input `/12/34` of two adjacent numeric segments
yields `/{id}/34`, not `/{id}/{id}`: the replacement of `/12/` consumes the
slash that the match of `34` would need. -/
theorem normalizePath_adjacent_numeric :
    normalizePath "/12/34" = "/{id}/34" ∧ normalizePath "/12/34" ≠ "/{id}/{id}" := by
  refine ⟨by decide, by decide⟩

/-- C6 (amended): numeric segments are replaced in one left-to-right pass
of non-overlapping matches of `/\d+(/|$)`, whose replacement consumes the
trailing slash; numeric segments separated by non-numeric ones are all
replaced (`/users/123/posts/456` → `/users/{id}/posts/{id}`), while a
numeric segment directly after a replaced one survives the pass
(`/12/34` → `/{id}/34`). -/
theorem normalizePath_numeric_segments :
    normalizePath "/users/123/posts/456" = "/users/{id}/posts/{id}" ∧
    normalizePath "/users/12345/profile" = "/users/{id}/profile" ∧
    normalizePath "/12/34" = "/{id}/34" ∧
    normalizePath "/1/2/3" = "/{id}/2/{id}" := by
  refine ⟨by decide, by decide, by decide, by decide⟩

/-! ## C1 — first-match semantics of the rule loop -/

theorem evalRules_first_match (cfg : Config) (tCtx : TransformContext)
    (rules : List CompiledRule) (span : Span) (st : ProcState) :
    (evalRules cfg tCtx rules span st).1 =
      match rules.find? (ruleApplies tCtx span) with
      | some r => appliedSpan cfg tCtx r span
      | none => span := by
  induction rules generalizing st with
  | nil => rfl
  | cons r rest ih =>
    by_cases hk : kindFilterPasses r span = true
    · cases hc : r.condition tCtx with
      | error e =>
        have hap : ruleApplies tCtx span r = false := by simp [ruleApplies, hc]
        rw [List.find?_cons_of_neg _ (by simp [hap])]
        simp [evalRules, hk, hc, ih st]
      | ok b =>
        cases b with
        | false =>
          have hap : ruleApplies tCtx span r = false := by simp [ruleApplies, hc]
          rw [List.find?_cons_of_neg _ (by simp [hap])]
          simp [evalRules, hk, hc, ih st]
        | true =>
          cases hn : r.operationName tCtx with
          | error e =>
            have hap : ruleApplies tCtx span r = false := by simp [ruleApplies, hc, hn]
            rw [List.find?_cons_of_neg _ (by simp [hap])]
            simp [evalRules, hk, hc, hn, ih st]
          | ok v =>
            have hap : ruleApplies tCtx span r = true := by simp [ruleApplies, hk, hc, hn]
            rw [List.find?_cons_of_pos _ (by simp [hap])]
            simp [evalRules, hk, hc, hn, appliedSpan]
    · have hap : ruleApplies tCtx span r = false := by
        simp only [ruleApplies, Bool.and_eq_true] at *
        simp [Bool.eq_false_iff.mpr hk]
      rw [List.find?_cons_of_neg _ (by simp [hap])]
      simp [evalRules, Bool.eq_false_iff.mpr hk, ih st]

/-- C1: for a span whose operation-name attribute is absent, the span that
`processSpan` produces is determined by the *first* rule (in the compiled
order) whose kind filter admits the span, whose condition evaluates to
`true` without error and whose `operation_name` expression evaluates
without error; rules that error are skipped, and no rule after the first
applied one has any effect (at most one rule mutates the span). -/
theorem processSpan_first_match (cfg : Config) (rules : List CompiledRule)
    (resource scope : Attrs) (span : Span) (st : ProcState)
    (h : attrsGet span.attrs cfg.spanProcessing.operationNameAttribute = none) :
    (processSpan cfg rules resource scope span st).1 =
      match rules.find? (ruleApplies { span := span, scope := scope, resource := resource } span) with
      | some r => appliedSpan cfg { span := span, scope := scope, resource := resource } r span
      | none => span := by
  simp [processSpan, h, evalRules_first_match]

/-- C1 (witness): with a rule whose condition errors followed by one that
matches, the second rule is the applied one. -/
theorem processSpan_first_match_witness :
    attrsGet spanHttp.attrs cfgEnforce.spanProcessing.operationNameAttribute = none ∧
    (processSpan cfgEnforce [ruleCondErr, ruleOkB] [] [] spanHttp initState).1 =
      match [ruleCondErr, ruleOkB].find?
          (ruleApplies { span := spanHttp, scope := [], resource := [] } spanHttp) with
      | some r =>
        appliedSpan cfgEnforce { span := spanHttp, scope := [], resource := [] } r spanHttp
      | none => spanHttp :=
  ⟨rfl, processSpan_first_match cfgEnforce [ruleCondErr, ruleOkB] [] [] spanHttp initState rfl⟩

/-! ## C3 — pass-through when disabled -/

theorem processSpansList_disabled (cfg : Config) (rules : List CompiledRule)
    (resource scope : Attrs) (spans : List Span) (st : ProcState)
    (h : cfg.spanProcessing.enabled = false) :
    (processSpansList cfg rules resource scope spans st).1 = spans := by
  induction spans generalizing st with
  | nil => rfl
  | cons s ss ih =>
    have hrec := ih st
    rcases he : processSpansList cfg rules resource scope ss st with ⟨spans', st'', n⟩
    rw [he] at hrec
    simp only at hrec
    simp [processSpansList, h, he, hrec]

theorem processScopeSpans_disabled (cfg : Config) (rules : List CompiledRule)
    (resource : Attrs) (sss : List ScopeSpans) (st : ProcState)
    (h : cfg.spanProcessing.enabled = false) :
    (processScopeSpans cfg rules resource sss st).1 = sss := by
  induction sss generalizing st with
  | nil => rfl
  | cons ss rest ih =>
    rcases he : processSpansList cfg rules resource ss.scope ss.spans st with ⟨spans', st', n₁⟩
    have h1 := processSpansList_disabled cfg rules resource ss.scope ss.spans st h
    rw [he] at h1
    simp only at h1
    rcases he2 : processScopeSpans cfg rules resource rest st' with ⟨rest', st'', n₂⟩
    have h2 := ih st'
    rw [he2] at h2
    simp only at h2
    simp [processScopeSpans, he, he2, h1, h2]

theorem processResourceSpans_disabled (cfg : Config) (rules : List CompiledRule)
    (td : Traces) (st : ProcState)
    (h : cfg.spanProcessing.enabled = false) :
    (processResourceSpans cfg rules td st).1 = td := by
  induction td generalizing st with
  | nil => rfl
  | cons rs rest ih =>
    rcases he : processScopeSpans cfg rules rs.resource rs.scopeSpans st with ⟨sss', st', n₁⟩
    have h1 := processScopeSpans_disabled cfg rules rs.resource rs.scopeSpans st h
    rw [he] at h1
    simp only at h1
    rcases he2 : processResourceSpans cfg rules rest st' with ⟨rest', st'', n₂⟩
    have h2 := ih st'
    rw [he2] at h2
    simp only at h2
    simp [processResourceSpans, he, he2, h1, h2]

/-- C3: if the processor is disabled, or span processing is disabled, the
output batch is exactly the input batch — every span keeps its name and
attribute map. -/
theorem processTraces_passthrough (cfg : Config) (rules : List CompiledRule)
    (td : Traces) (st : ProcState)
    (h : cfg.enabled = false ∨ cfg.spanProcessing.enabled = false) :
    (processTraces cfg rules td st).1 = td := by
  rcases h with h | h
  · simp [processTraces, h]
  · cases he : cfg.enabled with
    | false => simp [processTraces, he]
    | true =>
      rcases he2 : processResourceSpans cfg rules td st with ⟨td', st', count⟩
      have h1 := processResourceSpans_disabled cfg rules td st h
      rw [he2] at h1
      simp only at h1
      simp [processTraces, he, he2, h1]

/-- C3 (witness): a batch passes through a configuration with the
processor on but span processing off. -/
theorem processTraces_passthrough_witness :
    ({ cfgEnforce with
        spanProcessing := { cfgEnforce.spanProcessing with enabled := false } } : Config).spanProcessing.enabled = false ∧
    (processTraces
        { cfgEnforce with
          spanProcessing := { cfgEnforce.spanProcessing with enabled := false } }
        [ruleOkB] tracesOne initState).1 = tracesOne :=
  ⟨rfl, processTraces_passthrough _ [ruleOkB] tracesOne initState (Or.inr rfl)⟩

/-! ## C4 — skip when the operation-name attribute is present -/

/-- C4: a span that already carries the configured operation-name
attribute is returned with name and attribute map untouched. -/
theorem processSpan_skip_on_present (cfg : Config) (rules : List CompiledRule)
    (resource scope : Attrs) (span : Span) (st : ProcState)
    (h : (attrsGet span.attrs cfg.spanProcessing.operationNameAttribute).isSome = true) :
    (processSpan cfg rules resource scope span st).1 = span := by
  simp [processSpan, h]

/-- C4 (witness): a span with `operation.name` pre-set is unchanged even
though a rule would match. -/
theorem processSpan_skip_on_present_witness :
    ((attrsGet (spanHttp.attrs ++ [("operation.name", AttrVal.str "pre")])
        cfgEnforce.spanProcessing.operationNameAttribute).isSome = true) ∧
    (processSpan cfgEnforce [ruleOkB] [] []
        { spanHttp with attrs := spanHttp.attrs ++ [("operation.name", AttrVal.str "pre")] }
        initState).1 =
      { spanHttp with attrs := spanHttp.attrs ++ [("operation.name", AttrVal.str "pre")] } :=
  ⟨by decide, processSpan_skip_on_present cfgEnforce [ruleOkB] [] [] _ initState (by decide)⟩

/-! ## C10 — `Config.Validate` with span processing disabled -/

/-- C10: whenever `span_processing.enabled` is false, `Config.Validate`
returns nil and leaves the configuration untouched — no mode check, rule
check, default filling or sorting happens, whatever the rest of the
configuration contains. -/
theorem configValidate_disabled_ok (cfg : Config)
    (h : cfg.spanProcessing.enabled = false) :
    Config.validate cfg = Except.ok cfg := by
  simp [Config.validate, h]

/-- C10 (witness): a configuration with invalid mode, duplicate empty rule
ids and empty expressions — but span processing disabled — validates to
`nil` unchanged. -/
theorem configValidate_disabled_ok_witness :
    cfgDisabledInvalid.spanProcessing.enabled = false ∧
    Config.validate cfgDisabledInvalid = Except.ok cfgDisabledInvalid :=
  ⟨rfl, configValidate_disabled_ok cfgDisabledInvalid rfl⟩

/-! ## C2 — supporting lemmas: the list-level insertion sort -/

theorem mem_dropWhile_gt {x : OTTLRule} {s : List OTTLRule}
    (hs : List.Pairwise prioLE s) {y : OTTLRule}
    (hy : y ∈ s.dropWhile (fun z => z.priority ≤ x.priority)) :
    x.priority < y.priority := by
  rcases hdw : s.dropWhile (fun z => decide (z.priority ≤ x.priority)) with _ | ⟨h0, t0⟩
  · rw [hdw] at hy; cases hy
  · have hhead := List.head?_dropWhile_not (fun z => decide (z.priority ≤ x.priority)) s
    rw [hdw] at hhead
    simp only [List.head?_cons] at hhead
    have hh0 : x.priority < h0.priority := by simpa using hhead
    have hsubl : (h0 :: t0).Sublist s := by
      rw [← hdw]; exact List.dropWhile_sublist _
    have hpw : List.Pairwise prioLE (h0 :: t0) := List.Pairwise.sublist hsubl hs
    rw [hdw] at hy
    rcases List.mem_cons.mp hy with rfl | hy2
    · exact hh0
    · have := (List.pairwise_cons.mp hpw).1 y hy2
      unfold prioLE at this; omega

theorem stableInsert_sorted {x : OTTLRule} {s : List OTTLRule}
    (hs : List.Pairwise prioLE s) : List.Pairwise prioLE (stableInsert x s) := by
  unfold stableInsert
  rw [List.pairwise_append]
  refine ⟨List.Pairwise.sublist (List.takeWhile_sublist _) hs, ?_, ?_⟩
  · rw [List.pairwise_cons]
    refine ⟨fun y hy => ?_, List.Pairwise.sublist (List.dropWhile_sublist _) hs⟩
    have := mem_dropWhile_gt hs hy
    unfold prioLE; omega
  · intro a ha b hb
    have hax : a.priority ≤ x.priority := by
      have := List.mem_takeWhile_imp ha; simpa using this
    rcases List.mem_cons.mp hb with rfl | hb2
    · exact hax
    · have := mem_dropWhile_gt hs hb2
      unfold prioLE; omega

theorem stableInsert_filter {x : OTTLRule} {s : List OTTLRule}
    (hs : List.Pairwise prioLE s) (q : Int) :
    (stableInsert x s).filter (fun r => r.priority = q) =
      s.filter (fun r => r.priority = q) ++ (if x.priority = q then [x] else []) := by
  have hdwf : (s.dropWhile (fun z => z.priority ≤ x.priority)).filter
      (fun r => decide (r.priority = q)) = [] ∨ ¬ x.priority = q := by
    by_cases hq : x.priority = q
    · left
      rw [List.filter_eq_nil_iff]
      intro a ha
      have := mem_dropWhile_gt hs ha
      simp only [decide_eq_true_eq]
      omega
    · right; exact hq
  conv_rhs => rw [← List.takeWhile_append_dropWhile
    (fun z => decide (z.priority ≤ x.priority)) s]
  unfold stableInsert
  rw [List.filter_append, List.filter_append]
  by_cases hq : x.priority = q
  · have hnil : (s.dropWhile (fun z => z.priority ≤ x.priority)).filter
        (fun r => decide (r.priority = q)) = [] := by
      rcases hdwf with h | h
      · exact h
      · exact absurd hq h
    rw [List.filter_cons_of_pos (by simpa using hq)]
    rw [hnil]
    simp [hq, hnil]
  · rw [List.filter_cons_of_neg (by simpa using hq)]
    simp [hq]

theorem stableSortGo_snoc (l : List OTTLRule) (x : OTTLRule) :
    stableSortGo (l ++ [x]) = stableInsert x (stableSortGo l) := by
  unfold stableSortGo
  rw [List.foldl_append]
  rfl

theorem stableSortGo_sorted (l : List OTTLRule) :
    List.Pairwise prioLE (stableSortGo l) := by
  induction l using List.reverseRecOn with
  | nil => exact List.Pairwise.nil
  | append_singleton l x ih =>
    rw [stableSortGo_snoc]; exact stableInsert_sorted ih

theorem stableSortGo_filter (l : List OTTLRule) (q : Int) :
    (stableSortGo l).filter (fun r => r.priority = q) =
      l.filter (fun r => r.priority = q) := by
  induction l using List.reverseRecOn with
  | nil => rfl
  | append_singleton l x ih =>
    rw [stableSortGo_snoc, stableInsert_filter (stableSortGo_sorted l) q, ih,
      List.filter_append]
    by_cases hq : x.priority = q <;> simp [hq]

theorem stableInsert_length (x : OTTLRule) (s : List OTTLRule) :
    (stableInsert x s).length = s.length + 1 := by
  unfold stableInsert
  rw [List.length_append, List.length_cons]
  have := congrArg List.length
    (List.takeWhile_append_dropWhile (fun z => decide (z.priority ≤ x.priority)) s)
  rw [List.length_append] at this
  omega

theorem stableSortGo_length (l : List OTTLRule) :
    (stableSortGo l).length = l.length := by
  induction l using List.reverseRecOn with
  | nil => rfl
  | append_singleton l x ih =>
    rw [stableSortGo_snoc, stableInsert_length, ih]; simp

theorem stableInsert_snoc_gt {x y : OTTLRule} (hy : ¬ y.priority ≤ x.priority)
    (s₀ : List OTTLRule) :
    stableInsert x (s₀ ++ [y]) = stableInsert x s₀ ++ [y] := by
  induction s₀ with
  | nil => simp [stableInsert, List.takeWhile_cons, List.dropWhile_cons, hy]
  | cons a s₀ ih =>
    by_cases ha : a.priority ≤ x.priority
    · simp only [stableInsert, List.cons_append, List.takeWhile_cons,
        List.dropWhile_cons, decide_eq_true_eq, ha, if_true] at ih ⊢
      simpa using ih
    · simp [stableInsert, List.takeWhile_cons, List.dropWhile_cons, ha]

theorem stableInsert_of_all_le {x : OTTLRule} {s : List OTTLRule}
    (h : ∀ z ∈ s, z.priority ≤ x.priority) :
    stableInsert x s = s ++ [x] := by
  unfold stableInsert
  rw [List.takeWhile_eq_self_iff.mpr (by intro z hz; simpa using h z hz),
    List.dropWhile_eq_nil_iff.mpr (by intro z hz; simpa using h z hz)]

/-! ## C2 — supporting lemmas: array/list bridge -/

theorem arr_getD_toList (arr : Array OTTLRule) (i : Nat) :
    arr.getD i default = arr.toList.getD i default := by
  rw [Array.getD_eq_get?, Array.getElem?_eq_getElem?_toList,
    ← List.getD_eq_getElem?_getD]

theorem toList_setD (a : Array OTTLRule) (i : Nat) (v : OTTLRule) :
    (a.setD i v).toList = a.toList.set i v := by
  unfold Array.setD
  split
  · exact Array.toList_set a _ v
  · rw [List.set_eq_of_length_le]
    rw [Array.length_toList]
    omega

theorem swapGo_toList (arr : Array OTTLRule) (i j : Nat) :
    (swapGo arr i j).toList =
      (arr.toList.set i (arr.toList.getD j default)).set j
        (arr.toList.getD i default) := by
  unfold swapGo
  rw [toList_setD, toList_setD, arr_getD_toList, arr_getD_toList]

theorem getD_append_cons (s : List OTTLRule) (x : OTTLRule) (t : List OTTLRule) :
    (s ++ x :: t).getD s.length default = x := by
  rw [List.getD_eq_getElem?_getD, List.getElem?_append_right (Nat.le_refl _)]
  simp

theorem getD_append_cons_succ (s : List OTTLRule) (y x : OTTLRule) (t : List OTTLRule) :
    (s ++ y :: x :: t).getD (s.length + 1) default = x := by
  rw [List.getD_eq_getElem?_getD,
    List.getElem?_append_right (Nat.le_succ_of_le (Nat.le_refl _))]
  simp

theorem lessAt_toList (arr : Array OTTLRule) (i j : Nat) :
    lessAt arr i j =
      decide ((arr.toList.getD i default).priority <
        (arr.toList.getD j default).priority) := by
  unfold lessAt prioAt
  rw [arr_getD_toList, arr_getD_toList]

theorem swapGo_shape {arr : Array OTTLRule} {s : List OTTLRule} {y x : OTTLRule}
    {t : List OTTLRule} (h : arr.toList = s ++ y :: x :: t) :
    (swapGo arr (s.length + 1) s.length).toList = s ++ x :: y :: t := by
  rw [swapGo_toList, h, getD_append_cons, getD_append_cons_succ]
  rw [List.set_append, if_neg (by omega)]
  have h1 : (y :: x :: t).set (s.length + 1 - s.length) y = y :: y :: t := by
    have : s.length + 1 - s.length = 1 := by omega
    rw [this, List.set_cons_succ, List.set_cons_zero]
  rw [h1, List.set_append, if_neg (by omega), Nat.sub_self, List.set_cons_zero]

/-! ## C2 — supporting lemmas: the insertion-sort simulation -/

theorem insertInner_spec :
    ∀ (s : List OTTLRule) (x : OTTLRule) (t : List OTTLRule) (arr : Array OTTLRule),
      arr.toList = s ++ x :: t →
      List.Pairwise prioLE s →
      (insertInner 0 arr s.length).toList = stableInsert x s ++ t := by
  intro s
  induction s using List.reverseRecOn with
  | nil =>
    intro x t arr h _
    simpa [insertInner, stableInsert] using h
  | append_singleton s₀ y ih =>
    intro x t arr h hs
    have harr : arr.toList = s₀ ++ y :: x :: t := by simpa using h
    have hlen : (s₀ ++ [y]).length = s₀.length + 1 := by simp
    have hless : lessAt arr (s₀.length + 1) s₀.length =
        decide (x.priority < y.priority) := by
      rw [lessAt_toList, harr, getD_append_cons, getD_append_cons_succ]
    rw [hlen]
    show (insertInner 0 arr (s₀.length + 1)).toList = _
    by_cases hxy : x.priority < y.priority
    · have hcond : lessAt arr (s₀.length + 1) s₀.length = true := by
        rw [hless]; simpa using hxy
      rw [show insertInner 0 arr (s₀.length + 1) =
          insertInner 0 (swapGo arr (s₀.length + 1) s₀.length) s₀.length by
        simp [insertInner, hcond]]
      have harr' := swapGo_shape harr
      have hs₀ : List.Pairwise prioLE s₀ :=
        List.Pairwise.sublist (by simp) hs
      rw [ih x (y :: t) _ harr' hs₀]
      rw [stableInsert_snoc_gt (by omega) s₀]
      simp
    · have hcond : lessAt arr (s₀.length + 1) s₀.length = false := by
        rw [hless]; simpa using hxy
      rw [show insertInner 0 arr (s₀.length + 1) = arr by simp [insertInner, hcond]]
      have hall : ∀ z ∈ s₀ ++ [y], z.priority ≤ x.priority := by
        intro z hz
        rcases List.mem_append.mp hz with hz0 | hzy
        · have hcross := (List.pairwise_append.mp hs).2.2 z hz0 y (by simp)
          unfold prioLE at hcross
          omega
        · have : z = y := by simpa using hzy
          subst this
          omega
      rw [stableInsert_of_all_le hall, harr]
      simp

theorem insertOuter_spec :
    ∀ (rest : List OTTLRule) (fuel : Nat) (done : List OTTLRule) (arr : Array OTTLRule),
      arr.toList = stableSortGo done ++ rest →
      rest.length ≤ fuel →
      (insertOuter 0 arr.size arr (stableSortGo done).length fuel).toList =
        stableSortGo (done ++ rest) := by
  intro rest
  induction rest with
  | nil =>
    intro fuel done arr h _
    have hsize : arr.size = (stableSortGo done).length := by
      have := congrArg List.length h
      rw [Array.length_toList] at this
      simpa using this
    cases fuel with
    | zero => simpa [insertOuter] using h
    | succ fuel =>
      rw [show insertOuter 0 arr.size arr (stableSortGo done).length (fuel + 1) = arr by
        simp [insertOuter, hsize]]
      simpa using h
  | cons xx rest ih =>
    intro fuel done arr h hfuel
    cases fuel with
    | zero => simp at hfuel
    | succ fuel =>
      have hlt : (stableSortGo done).length < arr.size := by
        have := congrArg List.length h
        rw [Array.length_toList] at this
        simp only [List.length_append, List.length_cons] at this
        omega
      rw [show insertOuter 0 arr.size arr (stableSortGo done).length (fuel + 1) =
          insertOuter 0 arr.size (insertInner 0 arr (stableSortGo done).length)
            ((stableSortGo done).length + 1) fuel by
        simp [insertOuter, hlt]]
      have hinner := insertInner_spec (stableSortGo done) xx rest arr h
        (stableSortGo_sorted done)
      have hsize' : (insertInner 0 arr (stableSortGo done).length).size = arr.size := by
        have h1 := congrArg List.length hinner
        have h2 := congrArg List.length h
        rw [Array.length_toList] at h1 h2
        simp only [List.length_append, List.length_cons, stableInsert_length] at h1 h2
        omega
      have hidx : (stableSortGo done).length + 1 = (stableSortGo (done ++ [xx])).length := by
        rw [stableSortGo_snoc, stableInsert_length]
      have harr' : (insertInner 0 arr (stableSortGo done).length).toList =
          stableSortGo (done ++ [xx]) ++ rest := by
        rw [hinner, stableSortGo_snoc]
      have hf2 : rest.length ≤ fuel := by simp at hfuel; omega
      rw [← hsize', hidx]
      rw [ih fuel (done ++ [xx]) _ harr' hf2]
      simp

theorem pdqsortGo_le12 (fuel : Nat) (arr : Array OTTLRule) (a b limit : Nat)
    (wb wp : Bool) (h : b - a ≤ 12) :
    pdqsortGo fuel arr a b limit wb wp = insertionSortGo arr a b := by
  cases fuel <;> simp [pdqsortGo, h]

theorem goSortSliceRules_le12 (rs : List OTTLRule) (h : rs.length ≤ 12) :
    goSortSliceRules rs = stableSortGo rs := by
  show (pdqsortGo ((rs.toArray.size + 2) * (goBitsLen rs.toArray.size + 2)) rs.toArray 0
      rs.toArray.size (goBitsLen rs.toArray.size) true true).toList = stableSortGo rs
  rw [pdqsortGo_le12 _ _ _ _ _ _ _ (by simpa [Array.size_toArray] using h)]
  unfold insertionSortGo
  cases rs with
  | nil => rfl
  | cons x rest =>
    have hinit : (x :: rest).toArray.toList = stableSortGo [x] ++ rest := by
      rw [Array.toList_toArray]
      rfl
    have hone : (1 : Nat) = (stableSortGo [x]).length := by rfl
    have hfuel : rest.length ≤ (x :: rest).toArray.size + 1 := by
      simp only [Array.size_toArray, List.length_cons]
      omega
    rw [show (0 : Nat) + 1 = (stableSortGo [x]).length from hone]
    rw [insertOuter_spec rest ((x :: rest).toArray.size + 1) [x] _ hinit hfuel]
    rfl

theorem validate_ok_rules (sp sp' : SpanProcessingConfig)
    (h : SpanProcessingConfig.validate sp = Except.ok sp') :
    sp'.rules = goSortSliceRules sp.rules := by
  unfold SpanProcessingConfig.validate at h
  repeat' split at h
  all_goals try (simp only [Except.ok.injEq] at h; subst h; rfl)
  all_goals exact absurd h (by simp)

/-! ## C2 — priority sort and tie order -/

/-- C2 (counterexample): equal priorities do *not* always keep their input
order.  `rules13` declares `r05` (priority 40) before `r12` (priority 40);
with 13 rules, `sort.Slice`'s pdqsort leaves the insertion-sort range and
its partition swaps carry `r12` in front of `r05`: `Validate` returns the
vector below, with `r12` at index 6 and `r05` at index 7. -/
theorem sortSlice_tie_reversed :
    (rules13[5]?.map fun r => (r.id, r.priority)) = some ("r05", 40) ∧
    (rules13[12]?.map fun r => (r.id, r.priority)) = some ("r12", 40) ∧
    (SpanProcessingConfig.validate spCfg13).toOption.map
        (fun sp => sp.rules.map fun r => (r.id, r.priority)) =
      some [("r00", 10), ("r01", 11), ("r04", 12), ("r06", 13), ("r10", 14), ("r11", 15),
            ("r12", 40), ("r05", 40), ("r03", 50), ("r09", 60), ("r07", 70), ("r08", 80),
            ("r02", 90)] := by
  refine ⟨by decide, by decide, by decide⟩

/-- C2 (amended): for *every* configuration of at most 12 rules that
`Validate` accepts — the range in which `sort.Slice`'s pdqsort degenerates
to a stable insertion sort — the resulting rule vector is sorted by
priority ascending and, for every priority, lists the rules of that
priority in exactly their configured order (so of two matching rules with
equal priority, the one declared first is the one applied).  Beyond 12
rules `sort.Slice` may reorder ties: the 13-rule configuration `spCfg13`
still comes out sorted ascending, but its tied pair is reversed
(`sortSlice_tie_reversed`). -/
theorem sortSlice_priority_amended :
    (∀ (sp sp' : SpanProcessingConfig), sp.rules.length ≤ 12 →
      SpanProcessingConfig.validate sp = Except.ok sp' →
      List.Pairwise prioLE sp'.rules ∧
      ∀ q : Int, sp'.rules.filter (fun r => r.priority = q) =
        sp.rules.filter (fun r => r.priority = q)) ∧
    ((SpanProcessingConfig.validate spCfg13).toOption.map
        (fun sp => sp.rules.map fun r => r.priority) =
      some [10, 11, 12, 13, 14, 15, 40, 40, 50, 60, 70, 80, 90]) := by
  constructor
  · intro sp sp' hlen hok
    rw [validate_ok_rules sp sp' hok, goSortSliceRules_le12 _ hlen]
    exact ⟨stableSortGo_sorted _, fun q => stableSortGo_filter _ q⟩
  · decide

/-- C2 (witness): the universal part applied to the three-rule tie
configuration: its validated vector is sorted and keeps the tied pair
`alpha`, `beta` (both priority 100) in declaration order. -/
theorem sortSlice_priority_amended_witness :
    spCfgTie3.rules.length ≤ 12 ∧
    SpanProcessingConfig.validate spCfgTie3 = Except.ok spCfgTie3Valid ∧
    List.Pairwise prioLE spCfgTie3Valid.rules ∧
    spCfgTie3Valid.rules.filter (fun r => r.priority = 100) =
      spCfgTie3.rules.filter (fun r => r.priority = 100) :=
  have hok : SpanProcessingConfig.validate spCfgTie3 = Except.ok spCfgTie3Valid := by rfl
  ⟨by decide, hok,
    (sortSlice_priority_amended.1 spCfgTie3 spCfgTie3Valid (by decide) hok).1,
    (sortSlice_priority_amended.1 spCfgTie3 spCfgTie3Valid (by decide) hok).2 100⟩

/-! ## C7 — stringification of expression results -/

/-- C7 (counterexample): a `nil` `operation_name` result is stringified by
`fmt.Sprintf("%v", ·)` to `"<nil>"`, not to the empty string: the attribute
written for a rule returning `nil` is `"<nil>"`. -/
theorem stringify_nil_not_empty :
    attrsGet (processSpan cfgEnrich [ruleNil] [] [] spanHttp initState).1.attrs
        "operation.name" = some (AttrVal.str "<nil>") ∧
    some (AttrVal.str "<nil>") ≠ some (AttrVal.str "") := by
  refine ⟨by decide, by decide⟩

/-- C7 (amended): when stringifying a rule's `operation_name` or
`operation_type` result, a nil expression result becomes `"<nil>"`
(Go's `%v` of an untyped nil); strings pass through unchanged; and
integers, booleans, and floats use their canonical textual form — decimal
for integers, `true`/`false` for booleans, and for a float64 the canonical
shortest `%g` text, which the value model carries and which passes through
unchanged. -/
theorem goFormatV_amended :
    goFormatV OttlValue.nil = "<nil>" ∧
    (∀ s, goFormatV (OttlValue.str s) = s) ∧
    (∀ n, goFormatV (OttlValue.int n) = toString n) ∧
    goFormatV (OttlValue.bool true) = "true" ∧
    goFormatV (OttlValue.bool false) = "false" ∧
    (∀ canonicalText, goFormatV (OttlValue.float canonicalText) = canonicalText) :=
  ⟨rfl, fun _ => rfl, fun _ => rfl, rfl, rfl, fun _ => rfl⟩

/-! ## C8 — default of `original_name_attribute` -/

/-- C8: with `original_name_attribute` unset, `Validate` fills in
`"span.name.original"` — not the `"name.original"` that the spec, the
repository README example and the repository's own tests
(`TestSpanProcessingConfig_DefaultValues`, the enforce-mode processor test)
expect. -/
theorem originalNameAttribute_default_bug :
    spCfgC8.originalNameAttribute = "" ∧
    (SpanProcessingConfig.validate spCfgC8).toOption.map
        (fun sp => sp.originalNameAttribute) = some "span.name.original" ∧
    "span.name.original" ≠ "name.original" := by
  refine ⟨rfl, by decide, by decide⟩

/-! ## C9 — the processing-errors counter -/

/-- C9: a rule whose condition evaluation errors is only skipped (the span
passes through); no code path increments the
`processor_semconv_errors` counter, so it stays at zero even though the
span evaluation hit an error. -/
theorem errors_counter_never_incremented :
    ruleCondErr.condition { span := spanHttp, scope := [], resource := [] } =
      Except.error "eval error" ∧
    (processSpan cfgEnrich [ruleCondErr] [] [] spanHttp initState).2.telemetry.errorsCount
      = 0 ∧
    (processSpan cfgEnrich [ruleCondErr] [] [] spanHttp initState).1 = spanHttp := by
  refine ⟨rfl, by decide, by decide⟩

/-! ## Supporting fact: `compileRules` preserves rule order

The compiled vector (C2's "after rule compilation") lists the rules in
exactly the order of the validated configuration; the reordering question
is entirely about the `sort.Slice` call in `Validate`. -/

theorem compileRules_preserves_ids (p : OttlParser) :
    ∀ (rs : List OTTLRule) (out : List CompiledRule),
      compileRules p rs = Except.ok out →
      out.map (fun r => (r.id, r.priority)) = rs.map (fun r => (r.id, r.priority)) := by
  intro rs
  induction rs with
  | nil =>
    intro out h
    simp only [compileRules, Except.ok.injEq] at h
    simp [← h]
  | cons r rest ih =>
    intro out h
    simp only [compileRules] at h
    cases hc : p.parseCondition r.condition with
    | error e => rw [hc] at h; exact absurd h (by simp)
    | ok cond =>
      rw [hc] at h
      cases hn : p.parseValueExpression r.operationName with
      | error e => rw [hn] at h; exact absurd h (by simp)
      | ok opn =>
        rw [hn] at h
        by_cases ht : r.operationType = ""
        · rw [if_pos ht] at h
          cases hr : compileRules p rest with
          | error e => rw [hr] at h; exact absurd h (by simp)
          | ok outRest =>
            rw [hr] at h
            simp only [Except.ok.injEq] at h
            subst h
            simp [ih outRest hr]
        · rw [if_neg ht] at h
          cases hp : p.parseValueExpression r.operationType with
          | error e => rw [hp] at h; exact absurd h (by simp)
          | ok f =>
            rw [hp] at h
            cases hr : compileRules p rest with
            | error e => rw [hr] at h; exact absurd h (by simp)
            | ok outRest =>
              rw [hr] at h
              simp only [Except.ok.injEq] at h
              subst h
              simp [ih outRest hr]
